import Mathlib

/-!
Verification of the redust Redis client's RESP core against its specification.

The development shallowly embeds the RESP value tree (`Data`), the wire
serializer (`ser/serializer.rs` driven by `Data::serialize` in `data/ser.rs`),
the serde deserializer for the `Data` target (`de/deserializer.rs`,
`data/de.rs`, `de.rs`), the tokio codec (`codec.rs`), the connection's
`pipeline` control flow (`connection.rs`), the stream `Id` parser
(`model/stream.rs`) and the `AutoclaimResponse` decoding (`model/stream/claim.rs`).

Bytes are lists of `Nat` (each entry one octet).  Parsers are total functions
returning explicit ok / framing-error / incomplete outcomes; the serde
deserializer additionally threads the remaining input on errors, exactly as
`from_bytes` packs it into `ReadError`.  The deserializer's recursion through
nested arrays (and its genuine non-termination on empty input, where
`deserialize_any` and `deserialize_option` call each other forever) is made
total with a fuel parameter; exhausted fuel is reported as `diverge`.

The crate in the tree mixes two generations of the `resp` sources.  The
deserializer imports `parse_err`, `parse_str_loose`, `parse_int_loose` and
header-level `parse_bytes` / `parse_array` from a parser module that is not
present (the `parser.rs` in the tree is an older nom-based parser over an older
`Data` shape, kept here as `OldParser` because one claim cites it); likewise
`Error::is_transient` is used but not defined in the tree.  Those missing
pieces are modelled from the specification and carry a
`Modelled from the spec:` doc comment.
-/

namespace Redust

/-- Bytes on the wire; each entry is one octet (value 0–255). -/
abbrev Bytes := List Nat

/-- Largest i64 value (`i64::MAX`), the bound of RESP integers. -/
def i64Max : Int := 9223372036854775807

/-- Smallest i64 value (`i64::MIN`). -/
def i64Min : Int := -9223372036854775808

/-- Number of u64 values (`u64::MAX + 1`), for nom's u64 overflow check. -/
def u64Size : Nat := 18446744073709551616

/-- ASCII decimal digit predicate on a byte. -/
def isDigit (b : Nat) : Bool := 48 ≤ b && b ≤ 57

/-- Numeric value of a most-significant-first decimal digit run. -/
def digitsVal (ds : Bytes) : Nat := ds.foldl (fun a b => a * 10 + (b - 48)) 0

/-- Decimal rendering of a natural number, with explicit fuel so that the
definition is structurally recursive (the fuel never runs out when it is at
least the number of digits; `natDec` supplies `n + 1`). -/
def natDecAux : Nat → Nat → Bytes
  | 0, _ => []
  | fuel + 1, n => if n < 10 then [48 + n] else natDecAux fuel (n / 10) ++ [48 + n % 10]

/-- Decimal rendering of a natural number (Rust `Display` for unsigned ints). -/
def natDec (n : Nat) : Bytes := natDecAux (n + 1) n

/-- Decimal rendering of a signed integer (Rust `Display` for i64). -/
def intDec (i : Int) : Bytes := if i < 0 then 45 :: natDec (-i).toNat else natDec i.toNat

/-- True when the string contains no CR (13) and no LF (10) byte. -/
def noCRLF (s : Bytes) : Bool := s.all fun b => b ≠ 13 && b ≠ 10

/-- UTF-8 continuation byte check (0x80–0xBF). -/
def isCont (b : Nat) : Bool := 128 ≤ b && b ≤ 191

/-- Strict UTF-8 validity of a byte sequence, as checked by Rust's
`str::from_utf8` (overlong encodings and surrogates rejected). -/
def utf8Valid : Bytes → Bool
  | [] => true
  | b :: rest =>
    if b ≤ 127 then utf8Valid rest
    else if 194 ≤ b && b ≤ 223 then
      match rest with
      | c1 :: r => isCont c1 && utf8Valid r
      | _ => false
    else if 224 ≤ b && b ≤ 239 then
      match rest with
      | c1 :: c2 :: r =>
        (if b = 224 then 160 ≤ c1 && c1 ≤ 191
         else if b = 237 then 128 ≤ c1 && c1 ≤ 159
         else isCont c1) && isCont c2 && utf8Valid r
      | _ => false
    else if 240 ≤ b && b ≤ 244 then
      match rest with
      | c1 :: c2 :: c3 :: r =>
        (if b = 240 then 144 ≤ c1 && c1 ≤ 191
         else if b = 244 then 128 ≤ c1 && c1 ≤ 143
         else isCont c1) && isCont c2 && isCont c3 && utf8Valid r
      | _ => false
    else false

/-- nom's `Needed`: how many more bytes an incomplete parse wants. -/
inductive Needed where
  | unknown
  | size (n : Nat)
deriving DecidableEq, Repr

/-- Outcome of a nom-style parser over borrowed input: a value with the
remaining input, a framing error, or the incomplete-input signal.  Error
positions and nom error codes are elided; no claim inspects them. -/
inductive PResult (α : Type) where
  | ok (rem : Bytes) (val : α)
  | err
  | incomplete (n : Needed)

/-- Modelled from the spec: the shared line recognizer behind
`parse_simple_string` and `parse_error` (§4.1) — the content runs up to CRLF
and must not contain a raw CR or LF; a line that has not yet reached its CRLF
is incomplete (nom `not_line_ending` + streaming `crlf`). -/
def readLine (input : Bytes) : PResult Bytes :=
  match input.dropWhile (fun b => b ≠ 13 && b ≠ 10) with
  | [] => .incomplete .unknown
  | [13] => .incomplete (.size 1)
  | 13 :: 10 :: r => .ok r (input.takeWhile fun b => b ≠ 13 && b ≠ 10)
  | _ => .err

/-- Streaming two-byte CRLF terminator (nom `crlf`): a strict prefix of CRLF at
the end of input is incomplete, anything else that is not CRLF is an error. -/
def expectCRLF (input : Bytes) : PResult Unit :=
  match input with
  | [] => .incomplete (.size 2)
  | [13] => .incomplete (.size 1)
  | 13 :: 10 :: r => .ok r ()
  | _ => .err

/-- The digit-run stage of nom's streaming signed decimal, after the optional
sign has been consumed: a nonempty digit run with i64 range check; while the
run touches the end of the input more digits could follow (incomplete). -/
def parseDecBody (neg : Bool) (body : Bytes) : PResult Int :=
  if (body.takeWhile isDigit).isEmpty then
    (if body.isEmpty then .incomplete (.size 1) else .err)
  else if (body.dropWhile isDigit).isEmpty then .incomplete (.size 1)
  else
    let v : Int :=
      if neg then -(digitsVal (body.takeWhile isDigit) : Int)
      else (digitsVal (body.takeWhile isDigit) : Int)
    if v < i64Min ∨ i64Max < v then .err else .ok (body.dropWhile isDigit) v

/-- Modelled from the spec: nom's streaming signed decimal (`i64`) as used for
integer frames and bulk/array length fields — optional `-`/`+` sign, then the
digit run. -/
def parseSignedDec (input : Bytes) : PResult Int :=
  match input with
  | [] => .incomplete (.size 1)
  | b :: rest =>
    if b = 45 then parseDecBody true rest
    else if b = 43 then parseDecBody false rest
    else parseDecBody false (b :: rest)

/-- A signed decimal length line terminated by CRLF (shared by integer, bulk
and array headers, after their type marker). -/
def parseLenLine (input : Bytes) : PResult Int :=
  match parseSignedDec input with
  | .ok rem0 v =>
    match expectCRLF rem0 with
    | .ok rem _ => .ok rem v
    | .err => .err
    | .incomplete n => .incomplete n
  | .err => .err
  | .incomplete n => .incomplete n

/-- Modelled from the spec: `parse_error` — expects the leading `-`, reads the
line up to CRLF, requires the text to be valid UTF-8 (§4.1). -/
def parse_err (input : Bytes) : PResult Bytes :=
  match input with
  | [] => .incomplete (.size 1)
  | 45 :: rest =>
    match readLine rest with
    | .ok rem line => if utf8Valid line then .ok rem line else .err
    | .err => .err
    | .incomplete n => .incomplete n
  | _ => .err

/-- Modelled from the spec: `parse_simple_string` — expects the leading `+`,
reads the line up to CRLF, requires valid UTF-8 (§4.1). -/
def parse_simple_string (input : Bytes) : PResult Bytes :=
  match input with
  | [] => .incomplete (.size 1)
  | 43 :: rest =>
    match readLine rest with
    | .ok rem line => if utf8Valid line then .ok rem line else .err
    | .err => .err
    | .incomplete n => .incomplete n
  | _ => .err

/-- Modelled from the spec: `parse_bulk_header` plus payload, the `parse_bytes`
the deserializer imports — leading `$`, signed decimal length, CRLF; length −1
is the null bulk (`none`); length ≥ 0 takes that many payload bytes which must
be followed by exactly CRLF; length −2 or lower is a framing error (§4.1). -/
def parse_bytes (input : Bytes) : PResult (Option Bytes) :=
  match input with
  | [] => .incomplete (.size 1)
  | 36 :: rest =>
    match parseLenLine rest with
    | .ok rem len =>
      if len = -1 then .ok rem none
      else if 0 ≤ len then
        if rem.length < len.toNat then .incomplete (.size (len.toNat - rem.length))
        else
          match rem.drop len.toNat with
          | [] => .incomplete (.size 2)
          | [13] => .incomplete (.size 1)
          | 13 :: 10 :: r => .ok r (some (rem.take len.toNat))
          | _ => .err
      else .err
    | .err => .err
    | .incomplete n => .incomplete n
  | _ => .err

/-- Modelled from the spec: `parse_array_header`, the `parse_array` the
deserializer imports — leading `*`, signed decimal length, CRLF; −1 is the
null array; −2 or lower is a framing error; the raw length is returned and the
nested frames are left to the caller (§4.1, deserializer.rs line 69). -/
def parse_array (input : Bytes) : PResult Int :=
  match input with
  | [] => .incomplete (.size 1)
  | 42 :: rest =>
    match parseLenLine rest with
    | .ok rem len => if -1 ≤ len then .ok rem len else .err
    | .err => .err
    | .incomplete n => .incomplete n
  | _ => .err

/-- An integer frame: leading `:`, signed decimal, CRLF. -/
def parse_int_frame (input : Bytes) : PResult Int :=
  match input with
  | [] => .incomplete (.size 1)
  | 58 :: rest => parseLenLine rest
  | _ => .err

/-- Rust `str::parse::<i64>`: the whole text is an optional sign and a
nonempty digit run, range-checked against i64. -/
def parseAllDec (s : Bytes) : Option Int :=
  let neg : Bool := match s with | 45 :: _ => true | _ => false
  let body : Bytes := match s with | 45 :: r => r | 43 :: r => r | r => r
  if body.isEmpty || !body.all isDigit then none
  else
    let v : Int := if neg then -(digitsVal body : Int) else (digitsVal body : Int)
    if v < i64Min ∨ i64Max < v then none else some v

/-- Modelled from the spec: `parse_str_loose` — accepts either a SimpleString
or a BulkString as a textual value when the bytes are valid UTF-8 (§4.1);
a null bulk is not a string and is rejected. -/
def parse_str_loose (input : Bytes) : PResult Bytes :=
  match input with
  | [] => .incomplete (.size 1)
  | 43 :: _ => parse_simple_string input
  | 36 :: _ =>
    match parse_bytes input with
    | .ok rem (some b) => if utf8Valid b then .ok rem b else .err
    | .ok _ none => .err
    | .err => .err
    | .incomplete n => .incomplete n
  | _ => .err

/-- Modelled from the spec: `parse_int_loose` — accepts an Integer frame, or a
textual representation (simple or bulk) parseable as i64 (§4.1). -/
def parse_int_loose (input : Bytes) : PResult Int :=
  match input with
  | [] => .incomplete (.size 1)
  | 58 :: _ => parse_int_frame input
  | 43 :: _ =>
    match parse_simple_string input with
    | .ok rem s =>
      match parseAllDec s with
      | some v => .ok rem v
      | none => .err
    | .err => .err
    | .incomplete n => .incomplete n
  | 36 :: _ =>
    match parse_bytes input with
    | .ok rem (some b) =>
      match parseAllDec b with
      | some v => .ok rem v
      | none => .err
    | .ok _ none => .err
    | .err => .err
    | .incomplete n => .incomplete n
  | _ => .err

/-- The RESP value tree `Data` of src/resp/src/data.rs: five variants, no
error variant, nulls folded into `null`.  The borrowed/owned `Cow` duality is
collapsed (`into_owned` is the identity here); SimpleString carries the UTF-8
bytes of its text. -/
inductive Data where
  | simpleString (s : Bytes)
  | integer (i : Int)
  | bulkString (b : Bytes)
  | array (xs : List Data)
  | null

/-- Classification of nom errors as stored in `Error::Parse`. -/
inductive NomErr where
  | failure
  | incomplete (n : Needed)
deriving DecidableEq, Repr

/-- The resp crate's `Error` (src/resp/src/error.rs): serde message errors,
I/O errors (payload elided), parse errors, and server-reported Redis errors. -/
inductive RError where
  | message (s : String)
  | io
  | parse (e : NomErr)
  | redis (msg : Bytes)
deriving DecidableEq, Repr

/-- Modelled from the spec: the classifier `is_transient(err)` returns true
only for Redis errors (§7); the method is referenced by both codecs but its
definition is not in the tree. -/
def RError.is_transient : RError → Bool
  | .redis _ => true
  | _ => false

mutual

/-- Wire serialization of a `Data` tree: `Data::serialize` (data/ser.rs lines
15–28) dispatching into the byte serializer of ser/serializer.rs —
`serialize_str` writes `+s\r\n`, `serialize_i64` writes `:n\r\n`,
`serialize_bytes` writes `$len\r\n…\r\n`, `serialize_seq` writes the `*len\r\n`
header then the elements, and `serialize_unit` (lines 137–144, default
`NullType::BulkString`) writes the seven bytes `$-1\r\n\r\n` — note the extra
trailing CRLF in the source's `b"$-1\r\n\r\n"` literal. -/
def serData : Data → Bytes
  | .simpleString s => 43 :: (s ++ [13, 10])
  | .integer i => 58 :: (intDec i ++ [13, 10])
  | .bulkString b => 36 :: (natDec b.length ++ [13, 10] ++ b ++ [13, 10])
  | .array xs => 42 :: (natDec xs.length ++ [13, 10] ++ serList xs)
  | .null => [36, 45, 49, 13, 10, 13, 10]

/-- Serialization of the elements of an array, in order. -/
def serList : List Data → Bytes
  | [] => []
  | d :: ds => serData d ++ serList ds

end

mutual

/-- Conditions under which the round-trip law can hold, mostly re-stating the
Rust type invariants: SimpleString text has no embedded CR/LF (§4.1's line
rule; the serializer writes it raw) and is valid UTF-8 (guaranteed by `str`),
integers fit i64 (guaranteed by the i64 field) and bulk/array lengths fit i64
(guaranteed by usize on 64-bit), and — the amendment forced by the
`serialize_unit` counterexample — `null` does not occur. -/
def DataWf : Data → Bool
  | .simpleString s => noCRLF s && utf8Valid s
  | .integer i => decide (i64Min ≤ i) && decide (i ≤ i64Max)
  | .bulkString b => decide ((b.length : Int) ≤ i64Max)
  | .array xs => decide ((xs.length : Int) ≤ i64Max) && dataListWf xs
  | .null => false

/-- `DataWf` for every element of a list. -/
def dataListWf : List Data → Bool
  | [] => true
  | d :: ds => DataWf d && dataListWf ds

end

mutual

/-- Nesting depth of a `Data` tree (leaves have depth 1). -/
def dataDepth : Data → Nat
  | .array xs => dataListDepth xs + 1
  | _ => 1

/-- Maximum nesting depth over a list of trees. -/
def dataListDepth : List Data → Nat
  | [] => 0
  | d :: ds => max (dataDepth d) (dataListDepth ds)

end

/-- Result of running the serde deserializer on borrowed bytes: a decoded
value with the remaining input, an error together with the deserializer's
remaining input (`from_bytes` packs exactly this pair into `ReadError`), or
divergence — the fuel ran out, modelling the source's genuine non-termination
(empty input sends `deserialize_any` and `deserialize_option` into mutual
recursion forever). -/
inductive DResT (α : Type) where
  | ok (val : α) (rem : Bytes)
  | err (e : RError) (rem : Bytes)
  | diverge

/-- The remaining-input component of a deserializer outcome: the `rem` of a
success, or the `remaining` field `from_bytes` stores into `ReadError` on
failure; nothing when the computation diverges. -/
def DResT.remOf? : DResT α → Option Bytes
  | .ok _ rem => some rem
  | .err _ rem => some rem
  | .diverge => none

/-- Sequentially decode `n` elements with `step`: the `WithLen` SeqAccess
(accessor.rs lines 13–31) driven by a visitor's `visit_seq` loop. -/
def runMany (step : Bytes → DResT α) : Nat → Bytes → DResT (List α)
  | 0, input => .ok [] input
  | n + 1, input =>
    match step input with
    | .ok d rem =>
      match runMany step n rem with
      | .ok ds rem2 => .ok (d :: ds) rem2
      | .err e rem2 => .err e rem2
      | .diverge => .diverge
    | .err e rem => .err e rem
    | .diverge => .diverge

/-- Deserialization of the `Data` target: `deserialize_any` (deserializer.rs
lines 104–120) dispatching on the first byte, combined with the `Data` visitor
of data/de.rs — `+` via `deserialize_str`/`parse_str_loose` to
`visit_borrowed_str`; `-` consumed by `parse_error` into `Error::Redis`; `:`
via `deserialize_i64`/`parse_int_loose`; `$` via
`deserialize_bytes`/`parse_bytes`, null bulk to `visit_none` (`null`); `*` via
`deserialize_seq`/`parse_array`, negative length to `visit_none`, otherwise a
`WithLen` element loop; any other byte is an invalid-value error.  On parser
failure the deserializer's input is left unadvanced, so the error carries the
original input.  Empty input enters `deserialize_option`, whose
`visit_some(self)` re-enters `deserialize_any` — in Rust an infinite
recursion, here one unit of fuel per round. -/
def deserializeData : Nat → Bytes → DResT Data
  | 0, _ => .diverge
  | fuel + 1, input =>
    match input.head? with
    | some 43 =>
      match parse_str_loose input with
      | .ok rem s => .ok (.simpleString s) rem
      | .err => .err (.parse .failure) input
      | .incomplete n => .err (.parse (.incomplete n)) input
    | some 45 =>
      match parse_err input with
      | .ok rem msg => .err (.redis msg) rem
      | .err => .err (.parse .failure) input
      | .incomplete n => .err (.parse (.incomplete n)) input
    | some 58 =>
      match parse_int_loose input with
      | .ok rem i => .ok (.integer i) rem
      | .err => .err (.parse .failure) input
      | .incomplete n => .err (.parse (.incomplete n)) input
    | some 36 =>
      match parse_bytes input with
      | .ok rem (some b) => .ok (.bulkString b) rem
      | .ok rem none => .ok .null rem
      | .err => .err (.parse .failure) input
      | .incomplete n => .err (.parse (.incomplete n)) input
    | some 42 =>
      match parse_array input with
      | .ok rem len =>
        if len < 0 then .ok .null rem
        else
          match runMany (deserializeData fuel) len.toNat rem with
          | .ok xs rem2 => .ok (.array xs) rem2
          | .err e rem2 => .err e rem2
          | .diverge => .diverge
      | .err => .err (.parse .failure) input
      | .incomplete n => .err (.parse (.incomplete n)) input
    | some _ => .err (.message "invalid value") input
    | none => deserializeData fuel input

/-- `from_bytes` for the `Data` target (de.rs lines 45–54): run the
deserializer, returning the value and the remaining bytes, or the error paired
with the remaining bytes (`ReadError`).  Fuel `input.length + 1` is enough for
every terminating execution, since each nested array level consumes input
before recursing. -/
def from_bytes (input : Bytes) : DResT Data := deserializeData (input.length + 1) input

/-- serialize_u64 of the byte serializer (ser/serializer.rs lines 97–99): it
forwards to `serialize_int`, which writes the value with `Display` — there is
no i64 range check, so every u64 succeeds and is written as `:{v}\r\n`. -/
def Serializer.serialize_u64 (v : Nat) : Except RError Bytes :=
  .ok (58 :: (natDec v ++ [13, 10]))

/-- serialize_u64 of the Data-tree serializer (data/ser.rs lines 83–87):
`i64::try_from(v)` with a custom message error on overflow. -/
def DataSerializer.serialize_u64 (v : Nat) : Except RError Data :=
  if (v : Int) ≤ i64Max then .ok (.integer (v : Int))
  else .error (.message "out of range integral type conversion attempted")

namespace OldParser

/-- Outcome of the older nom parser kept in src/resp/src/parser.rs; `panic`
models the source's `panic!("Unexpected data length from Redis: …")` arm. -/
inductive POut (α : Type) where
  | ok (rem : Bytes) (val : α)
  | err
  | incomplete (n : Needed)
  | panic

/-- parse_int of src/resp/src/parser.rs (lines 22–24): `terminated(i64, crlf)`
on input positioned after the type marker. -/
def parse_int (input : Bytes) : PResult Int := parseLenLine input

/-- parse_bytes of src/resp/src/parser.rs (lines 26–33), input positioned
after the `$` marker: length −1 yields None, length ≥ 0 takes the payload and
its CRLF, and every other length falls into the `_ => panic!` arm. -/
def parse_bytes (input : Bytes) : POut (Option Bytes) :=
  match parse_int input with
  | .ok rem len =>
    if len = -1 then .ok rem none
    else if 0 ≤ len then
      if rem.length < len.toNat then .incomplete (.size (len.toNat - rem.length))
      else
        match rem.drop len.toNat with
        | [] => .incomplete (.size 2)
        | [13] => .incomplete (.size 1)
        | 13 :: 10 :: r => .ok r (some (rem.take len.toNat))
        | _ => .err
    else .panic
  | .err => .err
  | .incomplete n => .incomplete n

/-- Decode `n` consecutive elements (nom `many_m_n(len, len, parse)`). -/
def manyExact (elem : Bytes → POut α) : Nat → Bytes → POut (List α)
  | 0, input => .ok input []
  | n + 1, input =>
    match elem input with
    | .ok rem d =>
      match manyExact elem n rem with
      | .ok rem2 ds => .ok rem2 (d :: ds)
      | .err => .err
      | .incomplete m => .incomplete m
      | .panic => .panic
    | .err => .err
    | .incomplete m => .incomplete m
    | .panic => .panic

/-- parse_array of src/resp/src/parser.rs (lines 35–42), input positioned
after the `*` marker and parameterized by the frame parser used for the
elements (the source fixes it to its own `parse`): length −1 yields None,
length ≥ 0 parses that many elements, and every other length falls into the
`_ => panic!` arm — before any element is looked at. -/
def parse_array (elem : Bytes → POut α) (input : Bytes) : POut (Option (List α)) :=
  match parse_int input with
  | .ok rem len =>
    if len = -1 then .ok rem none
    else if 0 ≤ len then
      match manyExact elem len.toNat rem with
      | .ok rem2 ds => .ok rem2 (some ds)
      | .err => .err
      | .incomplete m => .incomplete m
      | .panic => .panic
    else .panic
  | .err => .err
  | .incomplete n => .incomplete n

end OldParser

namespace Codec

/-- Outcome of one `Decoder::decode` call: the decoded item (outer result =
codec health, inner result = per-message server error) together with the
buffer contents after the `advance` call, or `stuck` when `from_bytes` does
not return (the deserializer's non-termination). -/
inductive DecOut where
  | res (r : Except RError (Option (Except RError Data))) (buf : Bytes)
  | stuck

/-- Codec::decode (src/src/codec.rs lines 23–57, identical to
src/resp/src/codec.rs lines 21–55): an empty buffer yields no frame; otherwise
`from_bytes::<Data>` runs on the whole buffer; on success the owned value is
yielded and the buffer advanced by `start_len - end_len`; on a
`Parse(Incomplete)` error no frame is yielded (the `reserve` hint is not
modelled); on a transient error the item `Ok(Err(e))` is yielded; on any other
error the decode call itself fails; in every error case the buffer is advanced
past the consumed bytes.  `advance` is modelled by `List.drop` of the
`start_len - end_len` difference, exactly as in the source. -/
def decode (src : Bytes) : DecOut :=
  if src.length = 0 then .res (.ok none) src
  else
    match from_bytes src with
    | .ok d rem => .res (.ok (some (.ok d))) (src.drop (src.length - rem.length))
    | .err e rem =>
      let buf := src.drop (src.length - rem.length)
      match e with
      | .parse (.incomplete _) => .res (.ok none) buf
      | e => if e.is_transient then .res (.ok (some (.error e))) buf else .res (.error e) buf
    | .diverge => .stuck

end Codec

namespace Connection

/-- State of a connection as far as `pipeline` observes it: the framed sink's
write buffer (frames fed but not yet flushed), the frames already flushed to
the wire in order, the number of flushes performed, and the incoming stream of
responses (each already decoded by the codec; `Err` entries are the transient
per-message errors the stream yields).  The TCP socket itself is abstracted to
these FIFO queues. -/
structure State where
  wbuf : List Bytes
  wire : List Bytes
  flushes : Nat
  incoming : List (Except RError Data)

/-- make_cmd (connection.rs lines 100–110): an Array of BulkStrings, one per
argument. -/
def make_cmd (args : List Bytes) : Data := .array (args.map Data.bulkString)

/-- SinkExt::feed through the codec's Encoder (codec.rs lines 60–67): the
frame is serialized into the write buffer; no flush.  Encoding a command frame
cannot fail (the serializer only writes to a growable buffer). -/
def feed (d : Data) (st : State) : State := { st with wbuf := st.wbuf ++ [serData d] }

/-- SinkExt::flush: the buffered frames go out to the wire. -/
def flush (st : State) : State :=
  { st with wire := st.wire ++ st.wbuf, wbuf := [], flushes := st.flushes + 1 }

/-- read_cmd (connection.rs lines 94–98): take the next stream item;
a closed stream is the I/O error "stream closed"; a transient per-message
error item is returned as the error itself (`item.and_then(identity)` in the
Stream impl, line 120). -/
def read_cmd (st : State) : Except RError Data × State :=
  match st.incoming with
  | [] => (.error .io, st)
  | x :: rest => (x, { st with incoming := rest })

/-- The response-reading loop of pipeline (connection.rs lines 62–66): read
exactly `n` responses, aborting on the first error. -/
def readN : Nat → State → Except RError (List Data) × State
  | 0, st => (.ok [], st)
  | n + 1, st =>
    match read_cmd st with
    | (.ok d, st1) =>
      match readN n st1 with
      | (.ok ds, st2) => (.ok (d :: ds), st2)
      | (.error e, st2) => (.error e, st2)
    | (.error e, st1) => (.error e, st1)

/-- Connection::pipeline (connection.rs lines 45–72): feed every command
(buffered), counting them; with at least one command, flush once and read
exactly that many responses; with zero commands, return the empty vector
without flushing or reading. -/
def pipeline (cmds : List (List Bytes)) (st : State) :
    Except RError (List Data) × State :=
  let st1 := cmds.foldl (fun s c => feed (make_cmd c) s) st
  if cmds.length > 0 then readN cmds.length (flush st1)
  else (.ok [], st1)

end Connection

/-- nom's `character::complete::u64`: a nonempty decimal digit run, failing
(not truncating) on u64 overflow; no sign is accepted. -/
def parseU64 (input : Bytes) : Option (Nat × Bytes) :=
  let ds := input.takeWhile isDigit
  if ds.isEmpty then none
  else if digitsVal ds < u64Size then some (digitsVal ds, input.dropWhile isDigit)
  else none

/-- TryFrom<&[u8]> for Id (src/src/model/stream.rs lines 42–54):
`complete(separated_pair(u64, char('-'), u64))`; the `let (_, (a, b))` pattern
discards whatever input remains after the second number. -/
def Id.try_from (input : Bytes) : Except Unit (Nat × Nat) :=
  match parseU64 input with
  | some (a, rest) =>
    match rest with
    | 45 :: rest2 =>
      match parseU64 rest2 with
      | some (b, _) => .ok (a, b)
      | none => .error ()
    | _ => .error ()
  | none => .error ()

/-- The input shape named by the claim, written from the spec's words (§3.4,
§4.7: textual form "<ms>-<seq>", reject missing separator or non-numeric
components): the entire input is a decimal u64 numeral, a `-`, and a decimal
u64 numeral, nothing else. -/
def specIdForm (s : Bytes) : Bool :=
  let ms := s.takeWhile isDigit
  match s.dropWhile isDigit with
  | 45 :: rest =>
    !ms.isEmpty && !rest.isEmpty && rest.all isDigit
      && decide (digitsVal ms < u64Size) && decide (digitsVal rest < u64Size)
  | _ => false

/-- Deserialization of a stream `Id` through the serde deserializer
(Deserialize for Id, model/stream.rs lines 81–150): `deserialize_any`
dispatches on the marker; `+` and `$` frames reach the visitor's string/bytes
methods, which run `Id::try_from` and report its failure as a custom message
error (the frame stays consumed); `-` is a Redis error; an integer frame is
consumed and then rejected by the visitor (no `visit_i64`); an array parses
its header, a negative length reaches `visit_none` (rejected), a non-negative
one reaches `visit_seq` (rejected before any element is read). -/
def deserializeId (input : Bytes) : DResT (Nat × Nat) :=
  match input.head? with
  | some 43 =>
    match parse_str_loose input with
    | .ok rem s =>
      match Id.try_from s with
      | .ok p => .ok p rem
      | .error _ => .err (.message "invalid stream id") rem
    | .err => .err (.parse .failure) input
    | .incomplete n => .err (.parse (.incomplete n)) input
  | some 36 =>
    match parse_bytes input with
    | .ok rem (some b) =>
      match Id.try_from b with
      | .ok p => .ok p rem
      | .error _ => .err (.message "invalid stream id") rem
    | .ok rem none => .err (.message "invalid type") rem
    | .err => .err (.parse .failure) input
    | .incomplete n => .err (.parse (.incomplete n)) input
  | some 45 =>
    match parse_err input with
    | .ok rem msg => .err (.redis msg) rem
    | .err => .err (.parse .failure) input
    | .incomplete n => .err (.parse (.incomplete n)) input
  | some 58 =>
    match parse_int_loose input with
    | .ok rem _ => .err (.message "invalid type") rem
    | .err => .err (.parse .failure) input
    | .incomplete n => .err (.parse (.incomplete n)) input
  | some 42 =>
    match parse_array input with
    | .ok rem _ => .err (.message "invalid type") rem
    | .err => .err (.parse .failure) input
    | .incomplete n => .err (.parse (.incomplete n)) input
  | some _ => .err (.message "invalid value") input
  | none => .err (.message "invalid type") input

/-- One bulk-string element through `deserialize_bytes` (deserializer.rs lines
220–228), as the byte-slice fields of stream entries use it: a `-` frame is a
Redis error (`check_error` in the parse_bytes method), a null bulk has no
visitor method, otherwise the payload is returned. -/
def deserializeBulk (input : Bytes) : DResT Bytes :=
  match input.head? with
  | some 45 =>
    match parse_err input with
    | .ok rem msg => .err (.redis msg) rem
    | .err => .err (.parse .failure) input
    | .incomplete n => .err (.parse (.incomplete n)) input
  | _ =>
    match parse_bytes input with
    | .ok rem (some b) => .ok b rem
    | .ok rem none => .err (.message "invalid type") rem
    | .err => .err (.parse .failure) input
    | .incomplete n => .err (.parse (.incomplete n)) input

/-- Sequentially decode `n` key/value pairs with `step` used for both key and
value: the `WithLen` MapAccess (accessor.rs lines 33–58) driven by a map
visitor's loop — elements are taken from the wire strictly in order,
key then value, pair after pair. -/
def runPairs (step : Bytes → DResT α) : Nat → Bytes → DResT (List (α × α))
  | 0, input => .ok [] input
  | n + 1, input =>
    match step input with
    | .ok k rem =>
      match step rem with
      | .ok v rem1 =>
        match runPairs step n rem1 with
        | .ok ps rem2 => .ok ((k, v) :: ps) rem2
        | .err e rem2 => .err e rem2
        | .diverge => .diverge
      | .err e rem1 => .err e rem1
      | .diverge => .diverge
    | .err e rem => .err e rem
    | .diverge => .diverge

/-- Modelled from the spec: the field→value payload of one stream entry
(`[f, v, f, v, ...]`, §4.7) — a flat array read as key/value pairs of bulk
strings, in wire order. -/
def deserializeFields (input : Bytes) : DResT (List (Bytes × Bytes)) :=
  match input.head? with
  | some 45 =>
    match parse_err input with
    | .ok rem msg => .err (.redis msg) rem
    | .err => .err (.parse .failure) input
    | .incomplete n => .err (.parse (.incomplete n)) input
  | _ =>
    match parse_array input with
    | .ok rem len =>
      if len < 0 then .err (.message "invalid type") rem
      else runPairs deserializeBulk (len.toNat / 2) rem
    | .err => .err (.parse .failure) input
    | .incomplete n => .err (.parse (.incomplete n)) input

/-- Modelled from the spec: one claimed entry `[id, [f, v, ...]]` (§4.7) — a
two-element array of a stream id and its field map.  The Entries type the
claim code uses is not under src; this follows the spec's wire shape. -/
def deserializeEntry (input : Bytes) : DResT ((Nat × Nat) × List (Bytes × Bytes)) :=
  match input.head? with
  | some 45 =>
    match parse_err input with
    | .ok rem msg => .err (.redis msg) rem
    | .err => .err (.parse .failure) input
    | .incomplete n => .err (.parse (.incomplete n)) input
  | _ =>
    match parse_array input with
    | .ok rem len =>
      if len = 2 then
        match deserializeId rem with
        | .ok id rem1 =>
          match deserializeFields rem1 with
          | .ok fs rem2 => .ok (id, fs) rem2
          | .err e rem2 => .err e rem2
          | .diverge => .diverge
        | .err e rem1 => .err e rem1
        | .diverge => .diverge
      else .err (.message "invalid length") rem
    | .err => .err (.parse .failure) input
    | .incomplete n => .err (.parse (.incomplete n)) input

/-- Modelled from the spec: the list of claimed entries of an autoclaim reply
(§3.4, §4.7) — an array of entries, decoded in wire order (the Rust target is
a HashMap; the association list keeps the order). -/
def deserializeEntries (input : Bytes) : DResT (List ((Nat × Nat) × List (Bytes × Bytes))) :=
  match input.head? with
  | some 45 =>
    match parse_err input with
    | .ok rem msg => .err (.redis msg) rem
    | .err => .err (.parse .failure) input
    | .incomplete n => .err (.parse (.incomplete n)) input
  | _ =>
    match parse_array input with
    | .ok rem len =>
      if len < 0 then .err (.message "invalid type") rem
      else runMany deserializeEntry len.toNat rem
    | .err => .err (.parse .failure) input
    | .incomplete n => .err (.parse (.incomplete n)) input

/-- A `Vec<Id>` through `deserialize_seq` (deserializer.rs lines 281–296): the
array header is parsed (with `check_error`), a negative length reaches the Vec
visitor's `visit_none` (rejected), otherwise the elements are read with the
`Id` deserializer. -/
def deserializeIdVec (input : Bytes) : DResT (List (Nat × Nat)) :=
  match input.head? with
  | some 45 =>
    match parse_err input with
    | .ok rem msg => .err (.redis msg) rem
    | .err => .err (.parse .failure) input
    | .incomplete n => .err (.parse (.incomplete n)) input
  | _ =>
    match parse_array input with
    | .ok rem len =>
      if len < 0 then .err (.message "invalid type") rem
      else runMany deserializeId len.toNat rem
    | .err => .err (.parse .failure) input
    | .incomplete n => .err (.parse (.incomplete n)) input

/-- The XAUTOCLAIM reply target (model/stream/claim.rs lines 5–16): next id,
claimed entries, deleted ids (the field carrying `#[serde(default)]`). -/
structure AutoclaimResponse where
  nextId : Nat × Nat
  entries : List ((Nat × Nat) × List (Bytes × Bytes))
  deleted : List (Nat × Nat)

/-- Deserialization of `AutoclaimResponse`: the serde derive for the
three-field tuple struct calls `deserialize_tuple_struct` with arity 3
(deserializer.rs lines 311–327), which runs `parse_array_len` (lines 78–90) —
`parse_array` (with `check_error`) followed by the exact-length comparison
`exp_signed == len`, every other length being `invalid_length` — and then
reads the three fields in order.  The `#[serde(default)]` on the third field
would substitute `Vec::new()` only if the sequence ran short, which the
exact-length check makes unreachable. -/
def deserializeAutoclaim (input : Bytes) : DResT AutoclaimResponse :=
  match input.head? with
  | some 45 =>
    match parse_err input with
    | .ok rem msg => .err (.redis msg) rem
    | .err => .err (.parse .failure) input
    | .incomplete n => .err (.parse (.incomplete n)) input
  | _ =>
    match parse_array input with
    | .ok rem len =>
      if len = 3 then
        match deserializeId rem with
        | .ok id rem1 =>
          match deserializeEntries rem1 with
          | .ok es rem2 =>
            match deserializeIdVec rem2 with
            | .ok ds rem3 => .ok ⟨id, es, ds⟩ rem3
            | .err e rem3 => .err e rem3
            | .diverge => .diverge
          | .err e rem2 => .err e rem2
          | .diverge => .diverge
        | .err e rem1 => .err e rem1
        | .diverge => .diverge
      else .err (.message "invalid length") rem
    | .err => .err (.parse .failure) input
    | .incomplete n => .err (.parse (.incomplete n)) input

/-- deserialize_map (deserializer.rs lines 329–344) with `Data` keys and
values: `parse_array` (through the method with `check_error`), a negative
length to `visit_none`, otherwise a `WithLen` MapAccess over `len / 2` pairs
driven by the map visitor's key/value loop. -/
def deserialize_map_pairs (fuel : Nat) (input : Bytes) : DResT (Option (List (Data × Data))) :=
  match input.head? with
  | some 45 =>
    match parse_err input with
    | .ok rem msg => .err (.redis msg) rem
    | .err => .err (.parse .failure) input
    | .incomplete n => .err (.parse (.incomplete n)) input
  | _ =>
    match parse_array input with
    | .ok rem len =>
      if len < 0 then .ok none rem
      else
        match runPairs (deserializeData fuel) (len.toNat / 2) rem with
        | .ok ps rem2 => .ok (some ps) rem2
        | .err e rem2 => .err e rem2
        | .diverge => .diverge
    | .err => .err (.parse .failure) input
    | .incomplete n => .err (.parse (.incomplete n)) input

/-- deserialize_struct (deserializer.rs lines 346–356): the name and field
list are ignored and the call delegates to deserialize_map. -/
def deserialize_struct_pairs (fuel : Nat) (input : Bytes) : DResT (Option (List (Data × Data))) :=
  deserialize_map_pairs fuel input

/-- Interleave key/value pairs into the flat element list the serializer and
the wire use (`HGETALL` shape). -/
def flattenPairs : List (Data × Data) → List Data
  | [] => []
  | (k, v) :: ps => k :: v :: flattenPairs ps

end Redust

/-! ## Groundwork: decimal digits -/

namespace Redust

theorem natDecAux_congr : ∀ (f g n : Nat), n < f → n < g → natDecAux f n = natDecAux g n := by
  intro f
  induction f with
  | zero => intro g n h; omega
  | succ f ih =>
    intro g n hf hg
    match g, hg with
    | g + 1, hg =>
      simp only [natDecAux]
      by_cases h10 : n < 10
      · simp [h10]
      · have hdiv : n / 10 < n := Nat.div_lt_self (by omega) (by omega)
        rw [if_neg h10, if_neg h10, ih g (n / 10) (by omega) (by omega)]

theorem natDec_eq (n : Nat) :
    natDec n = if n < 10 then [48 + n] else natDec (n / 10) ++ [48 + n % 10] := by
  show natDecAux (n + 1) n = _
  simp only [natDecAux]
  by_cases h10 : n < 10
  · simp [h10]
  · have hdiv : n / 10 < n := Nat.div_lt_self (by omega) (by omega)
    rw [if_neg h10, if_neg h10,
      natDecAux_congr n (n / 10 + 1) (n / 10) (by omega) (by omega)]
    rfl

theorem natDec_digits (n : Nat) : ∀ b ∈ natDec n, isDigit b = true := by
  induction n using Nat.strong_induction_on with
  | _ n ih =>
    rw [natDec_eq]
    by_cases h10 : n < 10
    · rw [if_pos h10]
      intro b hb
      rw [List.mem_singleton] at hb
      subst hb
      simp only [isDigit, Bool.and_eq_true, decide_eq_true_eq]
      omega
    · rw [if_neg h10]
      intro b hb
      rcases List.mem_append.mp hb with h | h
      · exact ih (n / 10) (Nat.div_lt_self (by omega) (by omega)) b h
      · rw [List.mem_singleton] at h
        subst h
        have : n % 10 < 10 := Nat.mod_lt _ (by omega)
        simp only [isDigit, Bool.and_eq_true, decide_eq_true_eq]
        omega

theorem natDec_ne_nil (n : Nat) : natDec n ≠ [] := by
  rw [natDec_eq]
  by_cases h10 : n < 10
  · simp [h10]
  · simp [h10]

theorem digitsVal_append_single (xs : Bytes) (c : Nat) :
    digitsVal (xs ++ [c]) = 10 * digitsVal xs + (c - 48) := by
  simp only [digitsVal, List.foldl_append, List.foldl_cons, List.foldl_nil]
  omega

theorem digitsVal_natDec (n : Nat) : digitsVal (natDec n) = n := by
  induction n using Nat.strong_induction_on with
  | _ n ih =>
    rw [natDec_eq]
    by_cases h10 : n < 10
    · rw [if_pos h10]
      simp only [digitsVal, List.foldl_cons, List.foldl_nil]
      omega
    · rw [if_neg h10, digitsVal_append_single,
        ih (n / 10) (Nat.div_lt_self (by omega) (by omega))]
      omega

/-! ## Groundwork: takeWhile / dropWhile over a recognized run -/

theorem takeWhile_all_append {p : Nat → Bool} :
    ∀ {ds : Bytes}, (∀ b ∈ ds, p b = true) → ∀ (c : Nat) (r : Bytes), p c = false →
    (ds ++ c :: r).takeWhile p = ds := by
  intro ds
  induction ds with
  | nil =>
    intro _ c r hc
    simp [List.takeWhile_cons, hc]
  | cons d ds ih =>
    intro h c r hc
    have hd : p d = true := h d (by simp)
    simp only [List.cons_append, List.takeWhile_cons, hd, if_true]
    rw [ih (fun b hb => h b (by simp [hb])) c r hc]

theorem dropWhile_all_append {p : Nat → Bool} :
    ∀ {ds : Bytes}, (∀ b ∈ ds, p b = true) → ∀ (c : Nat) (r : Bytes), p c = false →
    (ds ++ c :: r).dropWhile p = c :: r := by
  intro ds
  induction ds with
  | nil =>
    intro _ c r hc
    simp [List.dropWhile_cons, hc]
  | cons d ds ih =>
    intro h c r hc
    have hd : p d = true := h d (by simp)
    simp only [List.cons_append, List.dropWhile_cons, hd, if_true]
    rw [ih (fun b hb => h b (by simp [hb])) c r hc]

theorem takeWhile_all_self {p : Nat → Bool} :
    ∀ {ds : Bytes}, (∀ b ∈ ds, p b = true) → ds.takeWhile p = ds := by
  intro ds
  induction ds with
  | nil => intro _; rfl
  | cons d ds ih =>
    intro h
    have hd : p d = true := h d (by simp)
    simp only [List.takeWhile_cons, hd, if_true]
    rw [ih fun b hb => h b (by simp [hb])]

theorem dropWhile_all_self {p : Nat → Bool} :
    ∀ {ds : Bytes}, (∀ b ∈ ds, p b = true) → ds.dropWhile p = [] := by
  intro ds
  induction ds with
  | nil => intro _; rfl
  | cons d ds ih =>
    intro h
    have hd : p d = true := h d (by simp)
    simp only [List.dropWhile_cons, hd, if_true]
    exact ih fun b hb => h b (by simp [hb])

end Redust

/-! ## Groundwork: the shared decimal and line parsers on well-formed frames -/

namespace Redust

theorem i64Min_def : i64Min = -9223372036854775808 := rfl

theorem i64Max_def : i64Max = 9223372036854775807 := rfl

theorem natDec_cons (n : Nat) : ∃ d ds, natDec n = d :: ds ∧ isDigit d = true := by
  obtain ⟨d, ds, h⟩ := List.exists_cons_of_ne_nil (natDec_ne_nil n)
  exact ⟨d, ds, h, natDec_digits n d (by rw [h]; simp)⟩

theorem readLine_exact {s : Bytes} (hs : noCRLF s = true) (r : Bytes) :
    readLine (s ++ 13 :: 10 :: r) = .ok r s := by
  have hall : ∀ b ∈ s, (decide (b ≠ 13) && decide (b ≠ 10)) = true := by
    simpa [noCRLF, List.all_eq_true] using hs
  unfold readLine
  rw [dropWhile_all_append hall 13 (10 :: r) (by decide),
    takeWhile_all_append hall 13 (10 :: r) (by decide)]

theorem parseDecBody_natDec (neg : Bool) (n : Nat) (r : Bytes)
    (hr : i64Min ≤ (if neg then -(n : Int) else (n : Int)))
    (hr2 : (if neg then -(n : Int) else (n : Int)) ≤ i64Max) :
    parseDecBody neg (natDec n ++ 13 :: r) =
      .ok (13 :: r) (if neg then -(n : Int) else (n : Int)) := by
  have hall := natDec_digits n
  unfold parseDecBody
  rw [takeWhile_all_append hall 13 r (by decide),
    dropWhile_all_append hall 13 r (by decide)]
  rw [if_neg (by simp [natDec_ne_nil]), if_neg (by simp), digitsVal_natDec]
  rw [if_neg (by omega)]

theorem parseSignedDec_intDec (i : Int) (h1 : i64Min ≤ i) (h2 : i ≤ i64Max) (r : Bytes) :
    parseSignedDec (intDec i ++ 13 :: r) = .ok (13 :: r) i := by
  rw [i64Min_def] at h1
  rw [i64Max_def] at h2
  by_cases hi : i < 0
  · rw [intDec, if_pos hi]
    rw [List.cons_append, parseSignedDec]
    rw [if_pos rfl]
    have h := parseDecBody_natDec true (-i).toNat r
      (by rw [if_pos rfl, i64Min_def]; omega) (by rw [if_pos rfl, i64Max_def]; omega)
    rw [h, if_pos rfl]
    congr 1
    omega
  · rw [intDec, if_neg hi]
    obtain ⟨d, ds, hnd, hd⟩ := natDec_cons i.toNat
    have hd48 : 48 ≤ d ∧ d ≤ 57 := by simpa [isDigit] using hd
    rw [hnd, List.cons_append, parseSignedDec]
    rw [if_neg (by omega), if_neg (by omega), ← List.cons_append, ← hnd]
    have h := parseDecBody_natDec false i.toNat r
      (by rw [if_neg Bool.false_ne_true, i64Min_def]; omega)
      (by rw [if_neg Bool.false_ne_true, i64Max_def]; omega)
    rw [h, if_neg Bool.false_ne_true]
    congr 1
    omega

theorem parseLenLine_intDec (i : Int) (h1 : i64Min ≤ i) (h2 : i ≤ i64Max) (r : Bytes) :
    parseLenLine (intDec i ++ 13 :: 10 :: r) = .ok r i := by
  unfold parseLenLine
  rw [parseSignedDec_intDec i h1 h2 (10 :: r)]
  rfl

theorem intDec_natCast (n : Nat) : intDec (n : Int) = natDec n := by
  rw [intDec, if_neg (by omega)]
  norm_num

theorem parseLenLine_natDec (n : Nat) (h : (n : Int) ≤ i64Max) (r : Bytes) :
    parseLenLine (natDec n ++ 13 :: 10 :: r) = .ok r (n : Int) := by
  rw [← intDec_natCast]
  exact parseLenLine_intDec (n : Int) (by rw [i64Min_def]; omega) h r

end Redust

/-! ## Groundwork: the frame parsers on well-formed serialized frames -/

namespace Redust

theorem parse_simple_string_exact {s : Bytes} (h1 : noCRLF s = true)
    (h2 : utf8Valid s = true) (r : Bytes) :
    parse_simple_string (43 :: (s ++ 13 :: 10 :: r)) = .ok r s := by
  simp only [parse_simple_string]
  rw [readLine_exact h1 r]
  simp only [h2, if_true]

theorem parse_err_exact {s : Bytes} (h1 : noCRLF s = true)
    (h2 : utf8Valid s = true) (r : Bytes) :
    parse_err (45 :: (s ++ 13 :: 10 :: r)) = .ok r s := by
  simp only [parse_err]
  rw [readLine_exact h1 r]
  simp only [h2, if_true]

theorem parse_str_loose_exact {s : Bytes} (h1 : noCRLF s = true)
    (h2 : utf8Valid s = true) (r : Bytes) :
    parse_str_loose (43 :: (s ++ 13 :: 10 :: r)) = .ok r s := by
  simp only [parse_str_loose]
  exact parse_simple_string_exact h1 h2 r

theorem parse_int_loose_exact (i : Int) (h1 : i64Min ≤ i) (h2 : i ≤ i64Max) (r : Bytes) :
    parse_int_loose (58 :: (intDec i ++ 13 :: 10 :: r)) = .ok r i := by
  simp only [parse_int_loose, parse_int_frame]
  rw [parseLenLine_intDec i h1 h2 r]

theorem parse_bytes_exact (b : Bytes) (hlen : (b.length : Int) ≤ i64Max) (r : Bytes) :
    parse_bytes (36 :: (natDec b.length ++ 13 :: 10 :: (b ++ 13 :: 10 :: r))) = .ok r (some b) := by
  simp only [parse_bytes]
  rw [parseLenLine_natDec b.length hlen (b ++ 13 :: 10 :: r)]
  have hn : ((b.length : Int)).toNat = b.length := by omega
  dsimp only
  rw [if_neg (by omega), if_pos (by omega), hn,
    if_neg (by simp), List.drop_left, List.take_left]

theorem parse_bytes_null (r : Bytes) : parse_bytes (36 :: (45 :: 49 :: 13 :: 10 :: r)) = .ok r none := by
  rfl

theorem parse_array_exact (n : Nat) (h : (n : Int) ≤ i64Max) (r : Bytes) :
    parse_array (42 :: (natDec n ++ 13 :: 10 :: r)) = .ok r (n : Int) := by
  simp only [parse_array]
  rw [parseLenLine_natDec n h r]
  dsimp only
  rw [if_pos (by omega)]

/-! ## Groundwork: well-formedness and depth accessors -/

theorem dataListWf_mem : ∀ {xs : List Data}, dataListWf xs = true → ∀ d ∈ xs, DataWf d = true := by
  intro xs
  induction xs with
  | nil => intro _ d hd; cases hd
  | cons x xs ih =>
    intro h d hd
    rw [dataListWf, Bool.and_eq_true] at h
    rcases List.mem_cons.mp hd with h1 | h1
    · subst h1; exact h.1
    · exact ih h.2 d h1

theorem dataListDepth_mem : ∀ {xs : List Data}, ∀ d ∈ xs, dataDepth d ≤ dataListDepth xs := by
  intro xs
  induction xs with
  | nil => intro d hd; cases hd
  | cons x xs ih =>
    intro d hd
    rw [dataListDepth]
    rcases List.mem_cons.mp hd with h1 | h1
    · subst h1; exact Nat.le_max_left _ _
    · exact le_trans (ih d h1) (Nat.le_max_right _ _)

end Redust

/-! ## The serializer / deserializer round trip -/

namespace Redust

theorem runMany_serData (step : Bytes → DResT Data) :
    ∀ (xs : List Data) (rest : Bytes),
    (∀ d ∈ xs, ∀ r2 : Bytes, step (serData d ++ r2) = .ok d r2) →
    runMany step xs.length (serList xs ++ rest) = .ok xs rest := by
  intro xs
  induction xs with
  | nil => intro rest _; rw [serList, List.nil_append]; rfl
  | cons d ds ih =>
    intro rest hstep
    rw [List.length_cons, serList, List.append_assoc, runMany,
      hstep d (by simp) (serList ds ++ rest)]
    dsimp only
    rw [ih rest fun d2 hd2 r2 => hstep d2 (by simp [hd2]) r2]

theorem deserializeData_serData :
    ∀ (fuel : Nat) (d : Data) (rest : Bytes), DataWf d = true → dataDepth d < fuel →
    deserializeData fuel (serData d ++ rest) = .ok d rest := by
  intro fuel
  induction fuel with
  | zero => intro d rest _ h; omega
  | succ f ih =>
    intro d rest hwf hdep
    cases d with
    | simpleString s =>
      rw [DataWf, Bool.and_eq_true] at hwf
      simp only [serData, List.cons_append, List.nil_append, List.append_assoc]
      rw [deserializeData, List.head?_cons]
      rw [parse_str_loose_exact hwf.1 hwf.2]
    | integer i =>
      rw [DataWf, Bool.and_eq_true, decide_eq_true_eq, decide_eq_true_eq] at hwf
      simp only [serData, List.cons_append, List.nil_append, List.append_assoc]
      rw [deserializeData, List.head?_cons]
      rw [parse_int_loose_exact i hwf.1 hwf.2]
    | bulkString b =>
      rw [DataWf, decide_eq_true_eq] at hwf
      simp only [serData, List.cons_append, List.nil_append, List.append_assoc]
      rw [deserializeData, List.head?_cons]
      rw [parse_bytes_exact b hwf]
    | array xs =>
      rw [DataWf, Bool.and_eq_true, decide_eq_true_eq] at hwf
      simp only [dataDepth] at hdep
      simp only [serData, List.cons_append, List.nil_append, List.append_assoc]
      rw [deserializeData, List.head?_cons]
      rw [parse_array_exact xs.length hwf.1]
      dsimp only
      rw [if_neg (by omega)]
      have hn : ((xs.length : Int)).toNat = xs.length := by omega
      rw [hn]
      rw [runMany_serData (deserializeData f) xs rest fun d2 hd2 r2 =>
        ih d2 r2 (dataListWf_mem hwf.2 d2 hd2)
          (by have := dataListDepth_mem d2 hd2; omega)]
    | null => simp [DataWf] at hwf

mutual

theorem dataDepth_le_serLen (d : Data) : dataDepth d ≤ (serData d).length := by
  cases d with
  | array xs =>
    have h := dataListDepth_le_serLen xs
    simp only [dataDepth, serData, List.length_cons, List.length_append]
    omega
  | simpleString s => simp [dataDepth, serData]
  | integer i => simp [dataDepth, serData]
  | bulkString b => simp [dataDepth, serData]
  | null => simp [dataDepth, serData]

theorem dataListDepth_le_serLen (xs : List Data) : dataListDepth xs ≤ (serList xs).length := by
  cases xs with
  | nil => simp [dataListDepth, serList]
  | cons d ds =>
    have h1 := dataDepth_le_serLen d
    have h2 := dataListDepth_le_serLen ds
    simp only [dataListDepth, serList, List.length_append]
    omega

end

theorem from_bytes_serData {d : Data} (h : DataWf d = true) : from_bytes (serData d) = .ok d [] := by
  have hlen := dataDepth_le_serLen d
  have h2 := deserializeData_serData ((serData d).length + 1) d [] h (by omega)
  rw [List.append_nil] at h2
  exact h2

end Redust

/-! ## Remaining-input suffix lemmas (consumed prefix + remainder = input) -/

namespace Redust

theorem suffix_of_eq_cons2 {a b : Nat} {r l : Bytes} (h : l = a :: b :: r) : r <:+ l :=
  ⟨[a, b], h.symm⟩

theorem readLine_suffix {input rem : Bytes} {v : Bytes} (h : readLine input = .ok rem v) :
    rem <:+ input := by
  unfold readLine at h
  split at h
  · exact absurd h (by simp)
  · exact absurd h (by simp)
  · rename_i r heq
    injection h with h1 h2
    subst h1
    exact List.IsSuffix.trans ⟨[13, 10], heq.symm⟩ (List.dropWhile_suffix _)
  · exact absurd h (by simp)

theorem expectCRLF_suffix {input rem : Bytes} {v : Unit} (h : expectCRLF input = .ok rem v) :
    rem <:+ input := by
  unfold expectCRLF at h
  split at h
  · exact absurd h (by simp)
  · exact absurd h (by simp)
  · injection h with h1 h2
    subst h1
    exact ⟨[13, 10], rfl⟩
  · exact absurd h (by simp)

theorem parseDecBody_suffix {neg : Bool} {input rem : Bytes} {v : Int}
    (h : parseDecBody neg input = .ok rem v) : rem <:+ input := by
  unfold parseDecBody at h
  split at h
  · split at h <;> exact absurd h (by simp)
  · split at h
    · exact absurd h (by simp)
    · split at h <;>
      · dsimp only at h
        split at h
        · exact absurd h (by simp)
        · injection h with h1 h2
          subst h1
          exact List.dropWhile_suffix _

theorem parseSignedDec_suffix {input rem : Bytes} {v : Int}
    (h : parseSignedDec input = .ok rem v) : rem <:+ input := by
  unfold parseSignedDec at h
  split at h
  · exact absurd h (by simp)
  · rename_i b rest
    split at h
    · exact (parseDecBody_suffix h).trans ⟨[b], rfl⟩
    · split at h
      · exact (parseDecBody_suffix h).trans ⟨[b], rfl⟩
      · exact parseDecBody_suffix h

theorem parseLenLine_suffix {input rem : Bytes} {v : Int}
    (h : parseLenLine input = .ok rem v) : rem <:+ input := by
  unfold parseLenLine at h
  split at h
  · rename_i rem0 v0 heq0
    split at h
    · rename_i u heq1
      injection h with h1 h2
      subst h1
      exact (expectCRLF_suffix heq1).trans (parseSignedDec_suffix heq0)
    · exact absurd h (by simp)
    · exact absurd h (by simp)
  · exact absurd h (by simp)
  · exact absurd h (by simp)

theorem parse_err_suffix {input rem : Bytes} {v : Bytes}
    (h : parse_err input = .ok rem v) : rem <:+ input := by
  unfold parse_err at h
  split at h
  · exact absurd h (by simp)
  · rename_i rest
    split at h
    · rename_i line heq
      split at h
      · injection h with h1 h2
        subst h1
        exact (readLine_suffix heq).trans ⟨[45], rfl⟩
      · exact absurd h (by simp)
    · exact absurd h (by simp)
    · exact absurd h (by simp)
  · exact absurd h (by simp)

theorem parse_simple_string_suffix {input rem : Bytes} {v : Bytes}
    (h : parse_simple_string input = .ok rem v) : rem <:+ input := by
  unfold parse_simple_string at h
  split at h
  · exact absurd h (by simp)
  · rename_i rest
    split at h
    · rename_i line heq
      split at h
      · injection h with h1 h2
        subst h1
        exact (readLine_suffix heq).trans ⟨[43], rfl⟩
      · exact absurd h (by simp)
    · exact absurd h (by simp)
    · exact absurd h (by simp)
  · exact absurd h (by simp)

theorem parse_bytes_suffix {input rem : Bytes} {v : Option Bytes}
    (h : parse_bytes input = .ok rem v) : rem <:+ input := by
  unfold parse_bytes at h
  split at h
  · exact absurd h (by simp)
  · rename_i rest
    split at h
    · rename_i rem0 len heq0
      have hsuf0 : rem0 <:+ rest := parseLenLine_suffix heq0
      split at h
      · injection h with h1 h2
        subst h1
        exact hsuf0.trans ⟨[36], rfl⟩
      · split at h
        · split at h
          · exact absurd h (by simp)
          · split at h
            · exact absurd h (by simp)
            · exact absurd h (by simp)
            · rename_i r heq1
              injection h with h1 h2
              subst h1
              exact (((suffix_of_eq_cons2 heq1).trans
                (List.drop_suffix _ _)).trans hsuf0).trans ⟨[36], rfl⟩
            · exact absurd h (by simp)
        · exact absurd h (by simp)
    · exact absurd h (by simp)
    · exact absurd h (by simp)
  · exact absurd h (by simp)

theorem parse_array_suffix {input rem : Bytes} {v : Int}
    (h : parse_array input = .ok rem v) : rem <:+ input := by
  unfold parse_array at h
  split at h
  · exact absurd h (by simp)
  · rename_i rest
    split at h
    · rename_i rem0 len heq0
      split at h
      · injection h with h1 h2
        subst h1
        exact (parseLenLine_suffix heq0).trans ⟨[42], rfl⟩
      · exact absurd h (by simp)
    · exact absurd h (by simp)
    · exact absurd h (by simp)
  · exact absurd h (by simp)

theorem parse_int_frame_suffix {input rem : Bytes} {v : Int}
    (h : parse_int_frame input = .ok rem v) : rem <:+ input := by
  unfold parse_int_frame at h
  split at h
  · exact absurd h (by simp)
  · rename_i rest
    exact (parseLenLine_suffix h).trans ⟨[58], rfl⟩
  · exact absurd h (by simp)

theorem parse_str_loose_suffix {input rem : Bytes} {v : Bytes}
    (h : parse_str_loose input = .ok rem v) : rem <:+ input := by
  unfold parse_str_loose at h
  split at h
  · exact absurd h (by simp)
  · exact parse_simple_string_suffix h
  · split at h
    · split at h
      · injection h with h1 h2
        subst h1
        exact parse_bytes_suffix (by assumption)
      · exact absurd h (by simp)
    · exact absurd h (by simp)
    · exact absurd h (by simp)
    · exact absurd h (by simp)
  · exact absurd h (by simp)

theorem parse_int_loose_suffix {input rem : Bytes} {v : Int}
    (h : parse_int_loose input = .ok rem v) : rem <:+ input := by
  unfold parse_int_loose at h
  split at h
  · exact absurd h (by simp)
  · exact parse_int_frame_suffix h
  · split at h
    · split at h
      · injection h with h1 h2
        subst h1
        exact parse_simple_string_suffix (by assumption)
      · exact absurd h (by simp)
    · exact absurd h (by simp)
    · exact absurd h (by simp)
  · split at h
    · split at h
      · injection h with h1 h2
        subst h1
        exact parse_bytes_suffix (by assumption)
      · exact absurd h (by simp)
    · exact absurd h (by simp)
    · exact absurd h (by simp)
    · exact absurd h (by simp)
  · exact absurd h (by simp)

end Redust

namespace Redust

theorem runMany_remOf {α : Type} (step : Bytes → DResT α)
    (hstep : ∀ i rem, (step i).remOf? = some rem → rem <:+ i) :
    ∀ (n : Nat) (input rem : Bytes), (runMany step n input).remOf? = some rem → rem <:+ input := by
  intro n
  induction n with
  | zero =>
    intro input rem h
    rw [runMany] at h
    simp only [DResT.remOf?, Option.some.injEq] at h
    subst h
    exact List.suffix_refl _
  | succ n ih =>
    intro input rem h
    rw [runMany] at h
    cases hstep0 : step input with
    | ok d rem1 =>
      rw [hstep0] at h
      dsimp only at h
      have hsuf1 : rem1 <:+ input := hstep input rem1 (by rw [hstep0]; rfl)
      cases h2 : runMany step n rem1 with
      | ok ds rem2 =>
        rw [h2] at h
        simp only [DResT.remOf?, Option.some.injEq] at h
        subst h
        exact (ih rem1 rem2 (by rw [h2]; rfl)).trans hsuf1
      | err e rem2 =>
        rw [h2] at h
        simp only [DResT.remOf?, Option.some.injEq] at h
        subst h
        exact (ih rem1 rem2 (by rw [h2]; rfl)).trans hsuf1
      | diverge =>
        rw [h2] at h
        simp [DResT.remOf?] at h
    | err e rem1 =>
      rw [hstep0] at h
      simp only [DResT.remOf?, Option.some.injEq] at h
      exact h ▸ hstep input rem1 (by rw [hstep0]; rfl)
    | diverge =>
      rw [hstep0] at h
      simp [DResT.remOf?] at h

theorem deserializeData_remOf :
    ∀ (fuel : Nat) (input rem : Bytes),
    (deserializeData fuel input).remOf? = some rem → rem <:+ input := by
  intro fuel
  induction fuel with
  | zero => intro input rem h; simp [deserializeData, DResT.remOf?] at h
  | succ f ih =>
    intro input rem h
    rw [deserializeData] at h
    split at h
    · -- '+'
      split at h <;> simp only [DResT.remOf?, Option.some.injEq] at h <;> subst h
      · exact parse_str_loose_suffix (by assumption)
      · exact List.suffix_refl _
      · exact List.suffix_refl _
    · -- '-'
      split at h <;> simp only [DResT.remOf?, Option.some.injEq] at h <;> subst h
      · exact parse_err_suffix (by assumption)
      · exact List.suffix_refl _
      · exact List.suffix_refl _
    · -- ':'
      split at h <;> simp only [DResT.remOf?, Option.some.injEq] at h <;> subst h
      · exact parse_int_loose_suffix (by assumption)
      · exact List.suffix_refl _
      · exact List.suffix_refl _
    · -- '$'
      split at h <;> simp only [DResT.remOf?, Option.some.injEq] at h <;> subst h
      · exact parse_bytes_suffix (by assumption)
      · exact parse_bytes_suffix (by assumption)
      · exact List.suffix_refl _
      · exact List.suffix_refl _
    · -- '*'
      split at h
      · rename_i rem0 len heq0
        have hsuf0 : rem0 <:+ input := parse_array_suffix heq0
        split at h
        · simp only [DResT.remOf?, Option.some.injEq] at h
          subst h
          exact hsuf0
        · split at h
          · rename_i xs rem2 heq1
            simp only [DResT.remOf?, Option.some.injEq] at h
            exact h ▸ ((runMany_remOf (deserializeData f) ih len.toNat rem0 rem2
              (by rw [heq1]; rfl)).trans hsuf0)
          · rename_i e rem2 heq1
            simp only [DResT.remOf?, Option.some.injEq] at h
            exact h ▸ ((runMany_remOf (deserializeData f) ih len.toNat rem0 rem2
              (by rw [heq1]; rfl)).trans hsuf0)
          · exact absurd h (by simp [DResT.remOf?])
      · simp only [DResT.remOf?, Option.some.injEq] at h
        subst h
        exact List.suffix_refl _
      · simp only [DResT.remOf?, Option.some.injEq] at h
        subst h
        exact List.suffix_refl _
    · -- other byte
      simp only [DResT.remOf?, Option.some.injEq] at h
      subst h
      exact List.suffix_refl _
    · -- empty input
      exact ih input rem h

end Redust

/-! ## Bridge lemmas: codec advance, error frames, pipeline, map pairs, ids -/

namespace Redust

theorem drop_sub_of_append {pre rem l : Bytes} (h : pre ++ rem = l) :
    l.drop (l.length - rem.length) = rem := by
  subst h
  rw [List.length_append]
  have h2 : pre.length + rem.length - rem.length = pre.length := by omega
  rw [h2, List.drop_left]

theorem advance_of_suffix {rem l : Bytes} (h : rem <:+ l) :
    l.drop (l.length - rem.length) = rem := by
  obtain ⟨pre, hp⟩ := h
  exact drop_sub_of_append hp

theorem from_bytes_err_frame {msg : Bytes} (h1 : noCRLF msg = true) (h2 : utf8Valid msg = true)
    (rest : Bytes) :
    from_bytes (45 :: (msg ++ 13 :: 10 :: rest)) = .err (.redis msg) rest := by
  rw [from_bytes, deserializeData, List.head?_cons]
  rw [parse_err_exact h1 h2 rest]

theorem decode_err_frame {msg : Bytes} (h1 : noCRLF msg = true) (h2 : utf8Valid msg = true)
    (rest : Bytes) :
    Codec.decode (45 :: (msg ++ 13 :: 10 :: rest)) =
      .res (.ok (some (.error (.redis msg)))) rest := by
  unfold Codec.decode
  rw [if_neg (by simp)]
  rw [from_bytes_err_frame h1 h2 rest]
  dsimp only [RError.is_transient]
  have hb : (45 :: (msg ++ [13, 10])) ++ rest = 45 :: (msg ++ 13 :: 10 :: rest) := by simp
  rw [drop_sub_of_append hb, if_pos rfl]

theorem foldl_feed (cmds : List (List Bytes)) :
    ∀ st : Connection.State,
    cmds.foldl (fun s c => Connection.feed (Connection.make_cmd c) s) st =
      { st with wbuf := st.wbuf ++ cmds.map fun c => serData (Connection.make_cmd c) } := by
  induction cmds with
  | nil => intro st; simp
  | cons c cs ih =>
    intro st
    rw [List.foldl_cons, ih]
    simp [Connection.feed, List.append_assoc]

theorem readN_map_ok (ds : List Data) :
    ∀ (rest : List (Except RError Data)) (st : Connection.State),
    st.incoming = ds.map Except.ok ++ rest →
    Connection.readN ds.length st = (.ok ds, { st with incoming := rest }) := by
  induction ds with
  | nil =>
    intro rest st h
    rw [List.length_nil, Connection.readN]
    rw [List.map_nil, List.nil_append] at h
    rw [← h]
  | cons d ds ih =>
    intro rest st h
    rw [List.map_cons, List.cons_append] at h
    rw [List.length_cons, Connection.readN, Connection.read_cmd, h]
    dsimp only
    rw [ih rest { st with incoming := ds.map Except.ok ++ rest } rfl]

theorem flattenPairs_length (ps : List (Data × Data)) :
    (flattenPairs ps).length = 2 * ps.length := by
  induction ps with
  | nil => rfl
  | cons p ps ih =>
    obtain ⟨k, v⟩ := p
    rw [flattenPairs, List.length_cons, List.length_cons, ih, List.length_cons]
    omega

theorem runPairs_serData (step : Bytes → DResT Data) :
    ∀ (ps : List (Data × Data)) (rest : Bytes),
    (∀ d ∈ flattenPairs ps, ∀ r2 : Bytes, step (serData d ++ r2) = .ok d r2) →
    runPairs step ps.length (serList (flattenPairs ps) ++ rest) = .ok ps rest := by
  intro ps
  induction ps with
  | nil => intro rest _; rw [flattenPairs, serList, List.nil_append]; rfl
  | cons p ps ih =>
    obtain ⟨k, v⟩ := p
    intro rest hstep
    rw [List.length_cons, flattenPairs, serList, serList, List.append_assoc, List.append_assoc,
      runPairs, hstep k (by rw [flattenPairs]; simp) (serData v ++ (serList (flattenPairs ps) ++ rest))]
    dsimp only
    rw [hstep v (by rw [flattenPairs]; simp) (serList (flattenPairs ps) ++ rest)]
    dsimp only
    rw [ih rest fun d2 hd2 r2 => hstep d2 (by rw [flattenPairs]; simp [hd2]) r2]

theorem parseU64_natDec {n : Nat} (h : n < u64Size) :
    ∀ (rest : Bytes), (rest = [] ∨ ∃ c r, rest = c :: r ∧ isDigit c = false) →
    parseU64 (natDec n ++ rest) = some (n, rest) := by
  intro rest hrest
  have hall := natDec_digits n
  unfold parseU64
  rcases hrest with h0 | ⟨c, r, hcr, hc⟩
  · subst h0
    rw [List.append_nil, takeWhile_all_self hall, dropWhile_all_self hall]
    rw [if_neg (by simp [natDec_ne_nil]), digitsVal_natDec, if_pos h]
  · subst hcr
    rw [takeWhile_all_append hall c r hc, dropWhile_all_append hall c r hc]
    rw [if_neg (by simp [natDec_ne_nil]), digitsVal_natDec, if_pos h]

end Redust

/-! ## The claims -/

namespace Redust

/-- Claim C1 (amended) — round trip: for every `Data` value `d` that contains
no `Null` and whose SimpleStrings are CR/LF-free valid UTF-8 (with the i64
bounds the Rust types already guarantee), serializing with to_bytes and then
deserializing with from_bytes yields exactly `(d, ε)`, for arbitrarily nested
arrays.  As literally stated the claim is false: `serialize_unit` writes
`$-1\x0d\x0a\x0d\x0a` with a trailing extra CRLF, so `Null` round-trips with a
two-byte remainder (see the counterexample), and a SimpleString containing a
raw CR or LF also breaks the frame. -/
theorem C1_roundtrip (d : Data) (h : DataWf d = true) : from_bytes (serData d) = .ok d [] := by
  have hlen := dataDepth_le_serLen d
  have h2 := deserializeData_serData ((serData d).length + 1) d [] h (by omega)
  rw [List.append_nil] at h2
  exact h2

/-- Claim C1, counterexample — serializing `Null` emits the seven bytes
`$-1\x0d\x0a\x0d\x0a`, and parsing them back leaves the remainder
`\x0d\x0a`, so `parse(serialize(Null))` is not `(Null, ε)`. -/
theorem C1_roundtrip_counterexample :
    serData Data.null = [36, 45, 49, 13, 10, 13, 10] ∧
    from_bytes (serData Data.null) = .ok Data.null [13, 10] ∧
    from_bytes (serData Data.null) ≠ .ok Data.null [] := by
  refine ⟨rfl, rfl, fun h => ?_⟩
  have h3 : DResT.ok Data.null [13, 10] = DResT.ok Data.null ([] : Bytes) :=
    Eq.trans (by rfl) h
  injection h3 with h4 h5
  exact absurd h5 (by simp)

/-- Claim C1, witness — the amended round trip at a nested concrete value. -/
theorem C1_roundtrip_witness :
    from_bytes (serData (Data.array [.integer (-42), .simpleString [79, 75],
        .array [.bulkString [97, 13, 10]], .bulkString []])) =
      .ok (Data.array [.integer (-42), .simpleString [79, 75],
        .array [.bulkString [97, 13, 10]], .bulkString []]) [] :=
  C1_roundtrip _ rfl

/-- Claim C2 — a complete server-error frame `-…\x0d\x0a` at the head of the
codec's buffer is consumed whole and yields the transient item
`Ok(Some(Err(Redis(msg))))`, leaving the buffer at the following bytes, and a
decode call on the now-empty buffer proceeds normally (`Ok(None)`); the
malformed frame `$3\x0d\x0afooXY` (payload not followed by CRLF) yields the
fatal outer error. -/
theorem C2_codec_transient_vs_fatal :
    (∀ msg rest : Bytes, noCRLF msg = true → utf8Valid msg = true →
      Codec.decode (45 :: (msg ++ 13 :: 10 :: rest)) =
        .res (.ok (some (.error (.redis msg)))) rest) ∧
    Codec.decode [] = .res (.ok none) [] ∧
    Codec.decode [36, 51, 13, 10, 102, 111, 111, 88, 89] =
      .res (.error (.parse .failure)) [36, 51, 13, 10, 102, 111, 111, 88, 89] :=
  ⟨fun _ rest h1 h2 => decode_err_frame h1 h2 rest, rfl, rfl⟩

/-- Claim C2, witness — the frame `-ERR bad\x0d\x0a` through the codec. -/
theorem C2_codec_transient_vs_fatal_witness :
    Codec.decode (45 :: ([69, 82, 82, 32, 98, 97, 100] ++ 13 :: 10 :: [])) =
      .res (.ok (some (.error (.redis [69, 82, 82, 32, 98, 97, 100])))) [] :=
  C2_codec_transient_vs_fatal.1 [69, 82, 82, 32, 98, 97, 100] [] (by decide) (by decide)

/-- Claim C3 — the claim says every u64 is range-checked against i64 and
serialization fails on overflow.  The byte-level serializer's serialize_u64
(ser/serializer.rs lines 97–99) does no such check: at `v = 2^63 = i64::MAX+1`
it succeeds and emits `:9223372036854775808\x0d\x0a`, a frame the crate's own
deserializer then rejects as a parse error; only the Data-tree serializer
(data/ser.rs lines 83–87) performs the claimed range check. -/
theorem C3_serialize_u64_unchecked :
    Serializer.serialize_u64 9223372036854775808 =
      .ok [58, 57, 50, 50, 51, 51, 55, 50, 48, 51, 54, 56, 53, 52, 55, 55, 53, 56, 48, 56, 13, 10] ∧
    from_bytes [58, 57, 50, 50, 51, 51, 55, 50, 48, 51, 54, 56, 53, 52, 55, 55, 53, 56, 48, 56, 13, 10] =
      .err (.parse .failure)
        [58, 57, 50, 50, 51, 51, 55, 50, 48, 51, 54, 56, 53, 52, 55, 55, 53, 56, 48, 56, 13, 10] ∧
    DataSerializer.serialize_u64 9223372036854775808 =
      .error (.message "out of range integral type conversion attempted") ∧
    DataSerializer.serialize_u64 9223372036854775807 = .ok (.integer 9223372036854775807) :=
  ⟨rfl, rfl, rfl, rfl⟩

/-- Claim C4 — for every input whose next frame is a complete server-error
frame `-msg\x0d\x0a`, deserialization consumes the frame and fails with
`Redis(msg)` carrying the server's text (the remaining input starts after the
frame), and never returns a `Data` value for it. -/
theorem C4_error_frame_fails (msg rest : Bytes) (h1 : noCRLF msg = true)
    (h2 : utf8Valid msg = true) :
    from_bytes (45 :: (msg ++ 13 :: 10 :: rest)) = .err (.redis msg) rest ∧
    ∀ (d : Data) (rem : Bytes), from_bytes (45 :: (msg ++ 13 :: 10 :: rest)) ≠ .ok d rem := by
  have hfb := from_bytes_err_frame h1 h2 rest
  refine ⟨hfb, fun d rem h => ?_⟩
  rw [hfb] at h
  exact DResT.noConfusion h

/-- Claim C4, witness — the frame `-Error\x0d\x0a` with trailing bytes. -/
theorem C4_error_frame_fails_witness :
    from_bytes (45 :: ([69, 114, 114, 111, 114] ++ 13 :: 10 :: [43])) =
      .err (.redis [69, 114, 114, 111, 114]) [43] :=
  (C4_error_frame_fails [69, 114, 114, 111, 114] [43] (by decide) (by decide)).1

/-- Claim C5 — pipeline over zero commands performs no write, no flush and no
read and returns the empty vector; over `n ≥ 1` commands it feeds every
encoded command into the write buffer, flushes exactly once, and returns the
first `n` stream responses in send order, consuming exactly those. -/
theorem C5_pipeline_fifo :
    (∀ st : Connection.State, Connection.pipeline [] st = (.ok [], st)) ∧
    (∀ (c : List Bytes) (cs : List (List Bytes)) (ds : List Data)
       (rest : List (Except RError Data)) (st : Connection.State),
      st.incoming = ds.map Except.ok ++ rest → ds.length = (c :: cs).length →
      Connection.pipeline (c :: cs) st =
        (.ok ds,
          { wbuf := [],
            wire := st.wire ++ st.wbuf ++ ((c :: cs).map fun a => serData (Connection.make_cmd a)),
            flushes := st.flushes + 1,
            incoming := rest })) := by
  constructor
  · intro st; rfl
  · intro c cs ds rest st hinc hlen
    rw [Connection.pipeline, foldl_feed]
    rw [if_pos (by simp)]
    have h2 := readN_map_ok ds rest
      (Connection.flush { st with wbuf := st.wbuf ++ (c :: cs).map fun a => serData (Connection.make_cmd a) })
      (by simpa [Connection.flush] using hinc)
    rw [hlen] at h2
    rw [h2]
    simp [Connection.flush, List.append_assoc]

/-- Claim C5, witness — two pipelined commands and their two responses, in
order. -/
theorem C5_pipeline_fifo_witness :
    Connection.pipeline [[[112, 105, 110, 103]], [[113]]]
        ⟨[], [], 0, [Except.ok (.bulkString [102]), Except.ok (.bulkString [98]),
          Except.ok (.simpleString [88])]⟩ =
      (.ok [.bulkString [102], .bulkString [98]],
        { wbuf := [],
          wire := [] ++ [] ++ ([[[112, 105, 110, 103]], [[113]]].map fun a =>
            serData (Connection.make_cmd a)),
          flushes := 0 + 1,
          incoming := [Except.ok (.simpleString [88])] }) :=
  C5_pipeline_fifo.2 [[112, 105, 110, 103]] [[[113]]]
    [.bulkString [102], .bulkString [98]] [Except.ok (.simpleString [88])] _ rfl rfl

/-- Claim C6 — the claim says a bulk or array header with length −2 or lower
is a fatal framing error rather than a panic; the parser actually in the tree
(src/resp/src/parser.rs lines 26–42) panics on such lengths: `parse_bytes` and
`parse_array` both reach the `_ => panic!` arm on the `$-2` / `*-2` header
(input after the marker is `-2\x0d\x0a`), whatever element parser the array
uses.  The parser the spec describes (modelled here as `parse_bytes` /
`parse_array`) returns the framing error instead. -/
theorem C6_negative_length_panics :
    OldParser.parse_bytes [45, 50, 13, 10] = .panic ∧
    (∀ elem : Bytes → OldParser.POut Data, OldParser.parse_array elem [45, 50, 13, 10] = .panic) ∧
    parse_bytes [36, 45, 50, 13, 10] = .err ∧
    parse_array [42, 45, 50, 13, 10] = .err :=
  ⟨rfl, fun _ => rfl, rfl, rfl⟩

/-- Claim C6, witness — the universally quantified array conjunct at a
concrete element parser. -/
theorem C6_negative_length_panics_witness :
    OldParser.parse_array (fun _ => (OldParser.POut.err : OldParser.POut Data)) [45, 50, 13, 10] =
      .panic :=
  C6_negative_length_panics.2.1 fun _ => OldParser.POut.err

/-- Claim C7 — the claim says an AutoclaimResponse decodes from arrays of
length 2 or 3 (deleted-ids defaulting to empty when absent) and that only
lengths < 2 or > 3 are mapping errors.  In the code `parse_array_len` accepts
exactly the serde arity 3: the length-3 reply decodes, but the length-2 reply
(a pre-7.0.0 Redis answer, precisely the case the `#[serde(default)]` third
field exists for) is rejected with the same invalid-length mapping error as
length 4. -/
theorem C7_autoclaim_exact_arity :
    deserializeAutoclaim
        ([42, 51, 13, 10] ++ [43, 48, 45, 48, 13, 10] ++
         [42, 49, 13, 10, 42, 50, 13, 10, 43, 49, 50, 51, 52, 45, 53, 54, 55, 56, 13, 10,
          42, 50, 13, 10, 36, 53, 13, 10, 102, 105, 101, 108, 100, 13, 10,
          36, 53, 13, 10, 118, 97, 108, 117, 101, 13, 10] ++ [42, 48, 13, 10]) =
      .ok ⟨(0, 0), [((1234, 5678), [([102, 105, 101, 108, 100], [118, 97, 108, 117, 101])])], []⟩
        [] ∧
    deserializeAutoclaim [42, 50, 13, 10, 43, 48, 45, 48, 13, 10, 42, 48, 13, 10] =
      .err (.message "invalid length") [43, 48, 45, 48, 13, 10, 42, 48, 13, 10] ∧
    deserializeAutoclaim
        [42, 52, 13, 10, 43, 48, 45, 48, 13, 10, 42, 48, 13, 10, 42, 48, 13, 10, 42, 48, 13, 10] =
      .err (.message "invalid length")
        [43, 48, 45, 48, 13, 10, 42, 48, 13, 10, 42, 48, 13, 10, 42, 48, 13, 10] :=
  ⟨rfl, rfl, rfl⟩

/-- Claim C8 — deserialize_map reads an array header of even length 2k and
interprets the 2k elements, in wire order, as k key/value pairs; and
deserialize_struct behaves identically to deserialize_map (it delegates to
it). -/
theorem C8_map_struct_pairs :
    (∀ (ps : List (Data × Data)) (rest : Bytes) (fuel : Nat),
      dataListWf (flattenPairs ps) = true →
      dataListDepth (flattenPairs ps) < fuel →
      ((flattenPairs ps).length : Int) ≤ i64Max →
      deserialize_map_pairs fuel (serData (.array (flattenPairs ps)) ++ rest) =
        .ok (some ps) rest) ∧
    (∀ (fuel : Nat) (input : Bytes),
      deserialize_struct_pairs fuel input = deserialize_map_pairs fuel input) := by
  constructor
  · intro ps rest fuel hwf hdep hlen
    have hx : serData (Data.array (flattenPairs ps)) ++ rest =
        42 :: (natDec (flattenPairs ps).length ++
          13 :: 10 :: (serList (flattenPairs ps) ++ rest)) := by
      simp [serData, List.cons_append, List.nil_append, List.append_assoc]
    rw [hx, deserialize_map_pairs, List.head?_cons]
    rw [parse_array_exact (flattenPairs ps).length hlen]
    dsimp only
    rw [if_neg (by omega)]
    have hk : (((flattenPairs ps).length : Int)).toNat / 2 = ps.length := by
      have h2 := flattenPairs_length ps
      omega
    rw [hk]
    rw [runPairs_serData (deserializeData fuel) ps rest fun d2 hd2 r2 =>
      deserializeData_serData fuel d2 r2 (dataListWf_mem hwf d2 hd2)
        (by have := dataListDepth_mem d2 hd2; omega)]
  · intro fuel input
    rfl

end Redust

namespace Redust

theorem dropWhile_cons_head_false {p : Nat → Bool} :
    ∀ {l r : Bytes} {c : Nat}, l.dropWhile p = c :: r → p c = false := by
  intro l
  induction l with
  | nil => intro r c h; exact absurd h (by simp)
  | cons a l ih =>
    intro r c h
    rw [List.dropWhile_cons] at h
    by_cases ha : p a = true
    · rw [if_pos ha] at h
      exact ih h
    · rw [if_neg ha] at h
      injection h with h1 h2
      subst h1
      exact Bool.eq_false_iff.mpr ha

theorem parseU64_some_inv {s : Bytes} {a : Nat} {rest : Bytes}
    (h : parseU64 s = some (a, rest)) :
    s.takeWhile isDigit ≠ [] ∧ a = digitsVal (s.takeWhile isDigit) ∧
    rest = s.dropWhile isDigit ∧ digitsVal (s.takeWhile isDigit) < u64Size := by
  unfold parseU64 at h
  dsimp only at h
  split at h
  · exact absurd h (by simp)
  · split at h
    · rename_i hne hlt
      simp only [Option.some.injEq, Prod.mk.injEq] at h
      exact ⟨by simpa using hne, h.1.symm, h.2.symm, hlt⟩
    · exact absurd h (by simp)

/-- Claim C9 (amended) — a complete characterization of `Id::try_from`:
parsing succeeds, returning `(ms, seq)`, exactly when the input splits as
`<run1>-<run2><rest>` where both runs are nonempty decimal digit runs whose
values `ms` and `seq` fit u64 and `rest` is empty or starts with a non-digit
byte (so the second run is maximal); the `let (_, (a, b))` pattern silently
discards `rest`.  Read right to left this gives the success side; read left
to right (contrapositively) it rejects every other input — missing separator,
non-numeric component at either position, u64 overflow.  As literally stated
("succeeds exactly on inputs of the form `<ms>-<seq>`") the claim is false:
`1-2x` succeeds (see the counterexample). -/
theorem C9_id_prefix_parse (s : Bytes) (p : Nat × Nat) :
    Id.try_from s = .ok p ↔
    ∃ ds1 ds2 rest : Bytes,
      s = ds1 ++ 45 :: (ds2 ++ rest) ∧
      ds1 ≠ [] ∧ (∀ b ∈ ds1, isDigit b = true) ∧
      ds2 ≠ [] ∧ (∀ b ∈ ds2, isDigit b = true) ∧
      digitsVal ds1 < u64Size ∧ digitsVal ds2 < u64Size ∧
      (rest = [] ∨ ∃ c r, rest = c :: r ∧ isDigit c = false) ∧
      p = (digitsVal ds1, digitsVal ds2) := by
  constructor
  · intro h
    unfold Id.try_from at h
    cases hp1 : parseU64 s with
    | none => rw [hp1] at h; exact absurd h (by simp)
    | some v =>
      obtain ⟨a, rest1⟩ := v
      rw [hp1] at h
      dsimp only at h
      obtain ⟨hne1, ha, hrest1, hlt1⟩ := parseU64_some_inv hp1
      split at h
      · rename_i rest2
        cases hp2 : parseU64 rest2 with
        | none => rw [hp2] at h; exact absurd h (by simp)
        | some w =>
          obtain ⟨b, rest3⟩ := w
          rw [hp2] at h
          dsimp only at h
          obtain ⟨hne2, hb, hrest3, hlt2⟩ := parseU64_some_inv hp2
          injection h with h1
          refine ⟨s.takeWhile isDigit, rest2.takeWhile isDigit, rest2.dropWhile isDigit,
            ?_, hne1, fun b2 hb2 => List.mem_takeWhile_imp hb2,
            hne2, fun b2 hb2 => List.mem_takeWhile_imp hb2,
            hlt1, hlt2, ?_, ?_⟩
          · conv_lhs => rw [← List.takeWhile_append_dropWhile isDigit s]
            rw [← hrest1, List.takeWhile_append_dropWhile]
          · cases hdw : rest2.dropWhile isDigit with
            | nil => exact Or.inl rfl
            | cons c r => exact Or.inr ⟨c, r, rfl, dropWhile_cons_head_false hdw⟩
          · rw [← h1, ha, hb]
      · exact absurd h (by simp)
  · rintro ⟨ds1, ds2, rest, hs, hne1, hd1, hne2, hd2, hlt1, hlt2, hrest, hp⟩
    subst hs
    subst hp
    unfold Id.try_from
    have h1 : parseU64 (ds1 ++ 45 :: (ds2 ++ rest)) =
        some (digitsVal ds1, 45 :: (ds2 ++ rest)) := by
      unfold parseU64
      rw [takeWhile_all_append hd1 45 (ds2 ++ rest) (by decide),
        dropWhile_all_append hd1 45 (ds2 ++ rest) (by decide),
        if_neg (by simp [hne1]), if_pos hlt1]
    rw [h1]
    dsimp only
    have h2 : parseU64 (ds2 ++ rest) = some (digitsVal ds2, rest) := by
      unfold parseU64
      rcases hrest with h0 | ⟨c, r, hcr, hc⟩
      · subst h0
        rw [List.append_nil, takeWhile_all_self hd2, dropWhile_all_self hd2,
          if_neg (by simp [hne2]), if_pos hlt2]
      · subst hcr
        rw [takeWhile_all_append hd2 c r hc, dropWhile_all_append hd2 c r hc,
          if_neg (by simp [hne2]), if_pos hlt2]
    rw [h2]

/-- Claim C9, counterexample — the input `1-2x` is not of the form
`<ms>-<seq>` (its second component is not numeric), yet `Id::try_from`
succeeds on it, returning `(1, 2)` and silently discarding the `x`. -/
theorem C9_id_prefix_parse_counterexample :
    Id.try_from [49, 45, 50, 120] = .ok (1, 2) ∧ specIdForm [49, 45, 50, 120] = false :=
  ⟨rfl, rfl⟩

/-- Claim C9, witness — the characterization applied right-to-left at the
concrete input `007-1x` (leading zeros in the first run, trailing junk):
parsing succeeds with `(7, 1)`. -/
theorem C9_id_prefix_parse_witness :
    Id.try_from [48, 48, 55, 45, 49, 120] = .ok (7, 1) :=
  (C9_id_prefix_parse [48, 48, 55, 45, 49, 120] (7, 1)).mpr
    ⟨[48, 48, 55], [49], [120], rfl, by decide, by decide, by decide, by decide,
      by decide, by decide, Or.inr ⟨120, [], rfl, by decide⟩, rfl⟩

/-- Claim C10 — whatever `from_bytes` returns, in the Ok case and inside
`ReadError` alike, the remaining slice is a suffix of the input (the consumed
prefix plus the remainder reconstitutes the input), hence never longer than
the input; consequently `Codec::decode` advances its buffer by exactly
`start_len - end_len ≥ 0` bytes — the buffer after the advance is precisely
the parser's remainder and the subtraction cannot underflow. -/
theorem C10_remainder_suffix :
    (∀ input rem : Bytes, (from_bytes input).remOf? = some rem →
      rem <:+ input ∧ rem.length ≤ input.length) ∧
    (∀ (src : Bytes) (d : Data) (rem : Bytes), from_bytes src = .ok d rem →
      Codec.decode src = .res (.ok (some (.ok d))) rem) ∧
    (∀ (src : Bytes) (e : RError) (rem : Bytes), from_bytes src = .err e rem →
      ∃ r, Codec.decode src = .res r rem) := by
  have hmain : ∀ input rem : Bytes, (from_bytes input).remOf? = some rem → rem <:+ input :=
    fun input rem h => deserializeData_remOf _ input rem h
  refine ⟨fun input rem h => ⟨hmain input rem h, (hmain input rem h).length_le⟩, ?_, ?_⟩
  · intro src d rem h
    have hsuf : rem <:+ src := hmain src rem (by rw [h]; rfl)
    have hne : src.length ≠ 0 := by
      intro h0
      rw [List.length_eq_zero] at h0
      subst h0
      exact DResT.noConfusion ((rfl : from_bytes [] = DResT.diverge).symm.trans h)
    unfold Codec.decode
    rw [if_neg hne, h]
    dsimp only
    rw [advance_of_suffix hsuf]
  · intro src e rem h
    have hsuf : rem <:+ src := hmain src rem (by rw [h]; rfl)
    have hne : src.length ≠ 0 := by
      intro h0
      rw [List.length_eq_zero] at h0
      subst h0
      exact DResT.noConfusion ((rfl : from_bytes [] = DResT.diverge).symm.trans h)
    unfold Codec.decode
    rw [if_neg hne, h]
    dsimp only
    rw [advance_of_suffix hsuf]
    cases e with
    | message s => exact ⟨_, rfl⟩
    | io => exact ⟨_, rfl⟩
    | redis m => exact ⟨_, rfl⟩
    | parse pe =>
      cases pe with
      | failure => exact ⟨_, rfl⟩
      | incomplete n => exact ⟨_, rfl⟩

/-- Claim C10, witness — a simple-string frame followed by one extra byte:
the remainder is that byte, a suffix, and decode advances exactly onto it. -/
theorem C10_remainder_suffix_witness :
    ([90] : Bytes) <:+ [43, 79, 75, 13, 10, 90] ∧
    Codec.decode [43, 79, 75, 13, 10, 90] =
      .res (.ok (some (.ok (.simpleString [79, 75])))) [90] :=
  ⟨(C10_remainder_suffix.1 [43, 79, 75, 13, 10, 90] [90] rfl).1,
   C10_remainder_suffix.2.1 [43, 79, 75, 13, 10, 90] (.simpleString [79, 75]) [90] rfl⟩

end Redust

namespace Redust

/-- Claim C8, witness — a two-element (one-pair) wire map decoded through
deserialize_map, and the struct/map agreement at the same input. -/
theorem C8_map_struct_pairs_witness :
    deserialize_map_pairs 3
        (serData (.array (flattenPairs [(Data.simpleString [97], Data.integer 1)])) ++ []) =
      .ok (some [(Data.simpleString [97], Data.integer 1)]) [] ∧
    deserialize_struct_pairs 3
        (serData (.array (flattenPairs [(Data.simpleString [97], Data.integer 1)])) ++ []) =
      deserialize_map_pairs 3
        (serData (.array (flattenPairs [(Data.simpleString [97], Data.integer 1)])) ++ []) :=
  ⟨C8_map_struct_pairs.1 [(Data.simpleString [97], Data.integer 1)] [] 3 rfl
      (by decide) (by decide),
   C8_map_struct_pairs.2 3 _⟩

end Redust
